import Mathlib

/- Verification of the windowed line-reading engine of a tail-style utility
   (src/main.rs). The byte stream is embedded shallowly at the granularity of
   successive read_line calls: a stream is the list of results those calls
   produce, an ok line (content including its terminator when present) or a
   read failure; the end of the list is end of stream (a zero-byte read). -/

/-- Reading direction, src/main.rs lines 347-351. -/
inductive ReadingDirection
  | TopToBottom
  | BottomToTop
deriving DecidableEq

/-- Anchored line offset, src/main.rs lines 353-357. -/
inductive Position
  | FromBegin (n : Nat)
  | FromEnd (n : Nat)
deriving DecidableEq

/-- A scanned line: 1-based ordinal and raw content, src/main.rs line 34. -/
abbrev Line := Nat × String

/-- One result of a read_line call. -/
inductive ReadItem
  | ok (s : String)
  | err
deriving DecidableEq

/-- The Read variant of FileError, src/main.rs lines 43-48 (the io source
payload is not modelled). -/
inductive FileError
  | Read (valid_reads : List Line) (error_line : Nat)
deriving DecidableEq

deriving instance DecidableEq for Except

/-- The Rust test ends_with for the newline character, evaluated on the
character list underlying the string. -/
def endsWithNewline (s : String) : Bool := s.data.getLast? = some '\n'

/-- Stop condition checked at the top of the scan loop, src/main.rs 420-424. -/
def stopReached (stop : Position) (line_count : Nat) : Bool :=
  match stop with
  | .FromBegin pos => line_count ≥ pos
  | .FromEnd _ => false

/-- Skip condition for lines before the start bound, src/main.rs 452-456. -/
def skipLine (start : Position) (line_count : Nat) : Bool :=
  match start with
  | .FromBegin pos => line_count < pos
  | .FromEnd _ => false

/-- Drop the oldest retained line once the buffer exceeds its cap,
src/main.rs 460-478. The deque is a list with its front at the head:
push_back appends at the end, pop_front drops the head. -/
def capBuffer (start stop : Position) (lines : List Line) : List Line :=
  match start, stop with
  | .FromBegin a, .FromBegin b => if lines.length > b - a then lines.drop 1 else lines
  | .FromBegin _, .FromEnd _ => lines
  | .FromEnd a, .FromBegin _ => if lines.length > a then lines.drop 1 else lines
  | .FromEnd a, .FromEnd _ => if lines.length > a then lines.drop 1 else lines

/-- Output ordering of a retained sequence, src/main.rs 439-444 and 486-491:
the sequence is reversed for BottomToTop emission. -/
def orderFor (direction : ReadingDirection) (lines : List Line) : List Line :=
  match direction with
  | .TopToBottom => lines
  | .BottomToTop => lines.reverse

/-- Post-loop trim of the trailing FromEnd overhang, src/main.rs 481-484:
the n most recent entries are drained when the stop bound is FromEnd n. -/
def trimStop (stop : Position) (lines : List Line) : List Line :=
  match stop with
  | .FromEnd n => lines.take (lines.length - n)
  | .FromBegin _ => lines

/-- The scan loop of read_lines, src/main.rs 411-479, one recursive step per
read_line call. On a failing read the error carries the retained lines in
output order and the 1-based index of the failing read. -/
def scanLoop (start stop : Position) (direction : ReadingDirection) :
    List ReadItem → Nat → List Line → Except FileError (List Line)
  | stream, line_count, lines =>
    if stopReached stop line_count then .ok lines
    else
      match stream with
      | [] => .ok lines
      | .err :: _ =>
          .error (.Read (orderFor direction lines) (line_count + 1))
      | .ok s :: rest =>
          if skipLine start (line_count + 1) then
            scanLoop start stop direction rest (line_count + 1) lines
          else
            scanLoop start stop direction rest (line_count + 1)
              (capBuffer start stop (lines ++ [(line_count + 1, s)]))

/-- Window normalization at the head of read_lines, src/main.rs 365-402.
The value none models the early return of Ok with an empty vector for a
degenerate window; otherwise the possibly swapped pair is returned. -/
def resolveWindow (start stop : Position) (direction : ReadingDirection) :
    Option (Position × Position) :=
  match direction with
  | .TopToBottom =>
    match start, stop with
    | .FromBegin a, .FromBegin b => if a ≥ b then none else some (start, stop)
    | .FromBegin _, .FromEnd _ => some (start, stop)
    | .FromEnd _, .FromBegin _ => some (start, stop)
    | .FromEnd a, .FromEnd b => if a ≤ b then none else some (start, stop)
  | .BottomToTop =>
    match start, stop with
    | .FromBegin a, .FromBegin b => if a ≤ b then none else some (stop, start)
    | .FromBegin _, .FromEnd _ => some (stop, start)
    | .FromEnd _, .FromBegin _ => some (stop, start)
    | .FromEnd a, .FromEnd b => if a ≥ b then none else some (stop, start)

/-- read_lines, src/main.rs 359-502: resolve the window, run the scan loop
from an empty buffer and zero line count, trim the trailing FromEnd overhang
after the loop, and reverse the sequence for BottomToTop emission. -/
def read_lines (stream : List ReadItem) (start stop : Position)
    (direction : ReadingDirection) : Except FileError (List Line) :=
  match resolveWindow start stop direction with
  | none => .ok []
  | some (start, stop) =>
    match scanLoop start stop direction stream 0 [] with
    | .error e => .error e
    | .ok lines => .ok (orderFor direction (trimStop stop lines))

/-- Ghost instrumentation of the scan loop: the length of the retained-line
buffer at the end of each iteration that stored a line. Control flow is
identical to scanLoop; it observes how large the buffer grows. -/
def scanLoopSizes (start stop : Position) :
    List ReadItem → Nat → List Line → List Nat
  | stream, line_count, lines =>
    if stopReached stop line_count then []
    else
      match stream with
      | [] => []
      | .err :: _ => []
      | .ok s :: rest =>
          if skipLine start (line_count + 1) then
            scanLoopSizes start stop rest (line_count + 1) lines
          else
            let stored := capBuffer start stop (lines ++ [(line_count + 1, s)])
            stored.length :: scanLoopSizes start stop rest (line_count + 1) stored

/-- Buffer-size trace of a full read_lines call. -/
def read_linesSizes (stream : List ReadItem) (start stop : Position)
    (direction : ReadingDirection) : List Nat :=
  match resolveWindow start stop direction with
  | none => []
  | some (start, stop) => scanLoopSizes start stop stream 0 []

/-- print_lines, src/main.rs 504-528, as the list of strings written to
standard output in emission order: each line is rendered as its number, a
colon and tab, its content, and a synthesized newline when the content lacks
one; the batch is reversed for BottomToTop and reversed again under the
reverse flag. -/
def print_lines (lines : List Line) (reading_direction : ReadingDirection)
    (reverse_flag : Bool) : List String :=
  let lines := match reading_direction with
    | .BottomToTop => lines.reverse
    | .TopToBottom => lines
  let emit := fun (p : Line) =>
    toString p.1 ++ ":\t" ++ p.2 ++ (if endsWithNewline p.2 then "" else "\n")
  if reverse_flag then lines.reverse.map emit else lines.map emit

/-- Boundary-adjacent line of a freshly scanned batch: first for TopToBottom,
last for BottomToTop, src/main.rs 274-311. -/
def boundaryLine (batch : List Line) (direction : ReadingDirection) :
    Option Line :=
  match direction with
  | .TopToBottom => batch.head?
  | .BottomToTop => batch.getLast?

/-- Whether the boundary-adjacent line is exactly a bare line terminator. -/
def boundaryIsBareTerminator (batch : List Line)
    (direction : ReadingDirection) : Bool :=
  match boundaryLine batch direction with
  | some (_, line) => decide (line = "\r\n" ∨ line = "\n")
  | none => false

/-- Follow-mode reconciliation, src/main.rs 268-318: stitch a bare-terminator
continuation into the previously observed last line and renumber the batch.
Returns the adjusted batch and the possibly stitched previous last line. -/
def reconcileCore (last : Option Line) (batch : List Line)
    (direction : ReadingDirection) : List Line × Option Line :=
  match last with
  | none => (batch, none)
  | some (num, content) =>
    if endsWithNewline content then
      (batch.map (fun p => (p.1 + num, p.2)), some (num, content))
    else
      match direction with
      | .TopToBottom =>
        match batch with
        | [] => (batch, some (num, content))
        | (_, line) :: rest =>
          if line = "\r\n" ∨ line = "\n" then
            (rest.map (fun p => (p.1 + (num - 1), p.2)), some (num, content ++ line))
          else
            (batch, some (num, content))
      | .BottomToTop =>
        match batch.getLast? with
        | none => (batch, some (num, content))
        | some (_, line) =>
          if line = "\r\n" ∨ line = "\n" then
            (batch.dropLast.map (fun p => (p.1 + (num - 1), p.2)),
              some (num, content ++ line))
          else
            (batch, some (num, content))

/-- One follow cycle of reconciliation, src/main.rs 268-335: the adjusted
batch, the stitched previous last line, and the new last observed line (the
boundary-adjacent line of the adjusted batch when non-empty, otherwise the
stitched previous last line). -/
def reconcile (last : Option Line) (batch : List Line)
    (direction : ReadingDirection) : List Line × Option Line × Option Line :=
  let r := reconcileCore last batch direction
  let new_last := match direction with
    | .TopToBottom =>
      match r.1.getLast? with
      | some l => some l
      | none => r.2
    | .BottomToTop =>
      match r.1.head? with
      | some l => some l
      | none => r.2
  (r.1, r.2, new_last)

/-- Initial window configuration from the head flag, src/main.rs 159-171. -/
def head_mode_config (n : Nat) (head_flag : Bool) :
    Position × Position × ReadingDirection :=
  if head_flag then (.FromBegin 0, .FromBegin n, .TopToBottom)
  else (.FromEnd 0, .FromEnd n, .BottomToTop)

/-- Outcome of choosing the scan window for one follow-loop cycle,
src/main.rs 255-263. The TopToBottom arm of that match is an unimplemented
todo invocation in the source, which panics at runtime; it is modelled by
the unimplemented constructor. -/
inductive FollowScanSetup
  | unimplemented
  | positions (start stop : Position)
deriving DecidableEq

/-- The follow-loop window choice per direction, src/main.rs 255-263. -/
def follow_cycle_positions (direction : ReadingDirection) : FollowScanSetup :=
  match direction with
  | .TopToBottom => .unimplemented
  | .BottomToTop => .positions (.FromEnd 0) (.FromBegin 0)

/-- The last k entries of a list; describes the capped deque contents. -/
def lastN (k : Nat) (l : List α) : List α := l.drop (l.length - k)

/-- C9: for every offset a and both directions, the zero-width windows with
equal FromBegin anchors and with equal FromEnd anchors yield Ok with an
empty sequence, for every stream whatsoever: the degenerate outcome is a
function of the anchors alone and no read is consulted. -/
theorem C9_zero_width_window (a : Nat) (direction : ReadingDirection)
    (stream : List ReadItem) :
    read_lines stream (.FromBegin a) (.FromBegin a) direction = .ok []
    ∧ read_lines stream (.FromEnd a) (.FromEnd a) direction = .ok [] := by
  cases direction <;> simp [read_lines, resolveWindow]

/-- C10: the head flag selects TopToBottom, and the follow-loop window choice
for TopToBottom is the unimplemented todo branch, which panics on the first
file-change event. -/
theorem C10_follow_head_unimplemented (n : Nat) :
    (head_mode_config n true).2.2 = .TopToBottom
    ∧ follow_cycle_positions (head_mode_config n true).2.2
        = .unimplemented := by
  constructor <;> rfl

/-- C2, counterexample: on previous_last (5, "hello") and batch
[(1, newline), (2, world-newline)] under TopToBottom, the reconciler does
not produce adjusted batch [(5, world-newline)] with new last (5, ...): the
shift is by previous_last.index minus one applied to the remaining indices,
giving index 6. -/
theorem C2_reconcile_counterexample :
    ¬ ((reconcile (some (5, "hello")) [(1, "\n"), (2, "world\n")] .TopToBottom).1
          = [(5, "world\n")]
       ∧ (reconcile (some (5, "hello")) [(1, "\n"), (2, "world\n")] .TopToBottom).2.2
          = some (5, "world\n")) := by
  decide

/-- C2, amended: with previous_last (5, "hello") lacking a terminator and
batch [(1, newline), (2, world-newline)] under TopToBottom, the bare
terminator is stitched (previous_last content becomes hello-newline), the
remaining line is renumbered to 2 + (5 - 1) = 6, so the adjusted batch is
[(6, world-newline)] and the new last observed line is (6, world-newline). -/
theorem C2_reconcile_amended :
    reconcile (some (5, "hello")) [(1, "\n"), (2, "world\n")] .TopToBottom
      = ([(6, "world\n")], some (5, "hello\n"), some (6, "world\n")) := by
  decide

/-- C3, counterexample: with previous_last (5, "hello") unterminated and a
batch whose first line (1, x-newline) is not a bare terminator, the claim
expects every index shifted by 5, so [(6, x-newline)]; the code performs no
shift in this case and leaves the batch as [(1, x-newline)]. -/
theorem C3_no_shift_counterexample :
    (reconcile (some (5, "hello")) [(1, "x\n")] .TopToBottom).1 ≠ [(6, "x\n")] := by
  decide

/-- C3, amended: whenever previous_last lacks a trailing terminator and the
boundary-adjacent line of the batch is not exactly a bare line terminator,
the reconciler leaves the batch completely unchanged: no index is shifted. -/
theorem C3_no_shift_amended (num : Nat) (content : String) (batch : List Line)
    (direction : ReadingDirection)
    (hterm : endsWithNewline content = false)
    (hbound : boundaryIsBareTerminator batch direction = false) :
    (reconcile (some (num, content)) batch direction).1 = batch := by
  cases direction with
  | TopToBottom =>
    cases batch with
    | nil => simp [reconcile, reconcileCore, hterm]
    | cons p rest =>
      obtain ⟨i, line⟩ := p
      have hne : ¬ (line = "\r\n" ∨ line = "\n") := by
        simpa [boundaryIsBareTerminator, boundaryLine] using hbound
      simp [reconcile, reconcileCore, hterm, hne]
  | BottomToTop =>
    match hb : batch.getLast? with
    | none => simp [reconcile, reconcileCore, hterm, hb]
    | some (i, line) =>
      have hne : ¬ (line = "\r\n" ∨ line = "\n") := by
        simpa [boundaryIsBareTerminator, boundaryLine, hb] using hbound
      simp [reconcile, reconcileCore, hterm, hb, hne]

/-- Witness for the amended C3 theorem at a concrete input. -/
theorem C3_no_shift_amended_witness :
    endsWithNewline "hello" = false
    ∧ boundaryIsBareTerminator [(1, "x\n")] .TopToBottom = false
    ∧ (reconcile (some (5, "hello")) [(1, "x\n")] .TopToBottom).1 = [(1, "x\n")] :=
  ⟨by decide, by decide,
    C3_no_shift_amended 5 "hello" [(1, "x\n")] .TopToBottom (by decide) (by decide)⟩

/-- C4, counterexample: for the four-line stream a, b, c, d the request
(FromEnd 0, FromEnd 2, BottomToTop) does not return [(3, c), (4, d)] from
the scanner: read_lines reverses the retained window and hands the caller
[(4, d), (3, c)]. -/
theorem C4_last_two_counterexample :
    read_lines ([ "a\n", "b\n", "c\n", "d\n" ].map .ok)
        (.FromEnd 0) (.FromEnd 2) .BottomToTop
      ≠ .ok [(3, "c\n"), (4, "d\n")] := by
  decide

/-- C4, amended: the scanner returns the last two lines latest-first,
[(4, d), (3, c)]; the direction-based reversal that yields the
earliest-to-display order [(3, c), (4, d)] happens in print_lines, which
reverses the batch again for BottomToTop before emitting. -/
theorem C4_last_two_amended :
    read_lines ([ "a\n", "b\n", "c\n", "d\n" ].map .ok)
        (.FromEnd 0) (.FromEnd 2) .BottomToTop
      = .ok [(4, "d\n"), (3, "c\n")]
    ∧ print_lines [(4, "d\n"), (3, "c\n")] .BottomToTop false
      = ["3:\tc\n", "4:\td\n"] := by
  exact ⟨by decide, by decide⟩

/-- C7, counterexample: for the window (FromBegin 0, FromEnd 1) the largest
finite FromEnd offset among the bounds is 1, yet on a two-line stream the
retained buffer grows to 2 lines: the code applies no cap at all in the
(FromBegin, FromEnd) anchor combination. -/
theorem C7_buffer_bound_counterexample :
    read_linesSizes ([ "a\n", "b\n" ].map .ok) (.FromBegin 0) (.FromEnd 1)
        .TopToBottom = [1, 2]
    ∧ 1 < 2 := by
  decide

/-- C8, counterexample: under BottomToTop with the two FromBegin bounds
0 and 2 on a three-line stream, read_lines returns the empty sequence, not a
non-empty window anchored at the top of the file; the same bounds under
TopToBottom do select the first two lines. -/
theorem C8_head_reverse_counterexample :
    read_lines ([ "a\n", "b\n", "c\n" ].map .ok) (.FromBegin 0) (.FromBegin 2)
        .BottomToTop = .ok []
    ∧ read_lines ([ "a\n", "b\n", "c\n" ].map .ok) (.FromBegin 0) (.FromBegin 2)
        .TopToBottom = .ok [(1, "a\n"), (2, "b\n")] := by
  exact ⟨by decide, by decide⟩

/-- C8, amended: under BottomToTop, two FromBegin bounds with start at most
stop are treated as a degenerate window: the resolver returns the empty
result immediately (without swapping), for every stream; a head-in-reverse
request is therefore always empty. -/
theorem C8_head_reverse_amended (a b : Nat) (stream : List ReadItem)
    (hab : a ≤ b) :
    read_lines stream (.FromBegin a) (.FromBegin b) .BottomToTop = .ok [] := by
  simp [read_lines, resolveWindow, hab]

/-- Witness for the amended C8 theorem at a concrete input. -/
theorem C8_head_reverse_amended_witness :
    0 ≤ 2
    ∧ read_lines [ReadItem.ok "a\n"] (.FromBegin 0) (.FromBegin 2) .BottomToTop
      = .ok [] :=
  ⟨by decide, C8_head_reverse_amended 0 2 [ReadItem.ok "a\n"] (by decide)⟩
theorem scanLoop_stop {start stop : Position} {direction : ReadingDirection}
    {stream : List ReadItem} {c : Nat} {B : List Line}
    (h : stopReached stop c = true) :
    scanLoop start stop direction stream c B = .ok B := by
  rw [scanLoop.eq_def]
  simp [h]

theorem scanLoop_nil {start stop : Position} {direction : ReadingDirection}
    {c : Nat} {B : List Line} :
    scanLoop start stop direction [] c B = .ok B := by
  rw [scanLoop.eq_def]
  by_cases h : stopReached stop c = true <;> simp [h]

theorem scanLoop_err {start stop : Position} {direction : ReadingDirection}
    {rest : List ReadItem} {c : Nat} {B : List Line}
    (h : stopReached stop c = false) :
    scanLoop start stop direction (.err :: rest) c B
      = .error (.Read (orderFor direction B) (c + 1)) := by
  rw [scanLoop.eq_def]
  simp [h]

theorem scanLoop_ok {start stop : Position} {direction : ReadingDirection}
    {s : String} {rest : List ReadItem} {c : Nat} {B : List Line}
    (h : stopReached stop c = false) :
    scanLoop start stop direction (.ok s :: rest) c B
      = if skipLine start (c + 1) then
          scanLoop start stop direction rest (c + 1) B
        else
          scanLoop start stop direction rest (c + 1)
            (capBuffer start stop (B ++ [(c + 1, s)])) := by
  rw [scanLoop.eq_def]
  simp [h]

theorem scanLoop_all_ok (direction : ReadingDirection) :
    ∀ (ls : List String) (c : Nat) (B : List Line),
      scanLoop (.FromBegin 0) (.FromEnd 0) direction (ls.map .ok) c B
        = .ok (B ++ List.enumFrom (c + 1) ls) := by
  intro ls
  induction ls with
  | nil => intro c B; simp [scanLoop_nil]
  | cons l rest ih =>
    intro c B
    rw [List.map_cons, scanLoop_ok (by simp [stopReached])]
    simp only [skipLine, capBuffer, decide_eq_true_eq, Nat.not_lt_zero, decide_False,
      Bool.false_eq_true, if_false]
    rw [ih]
    simp [List.enumFrom_cons]
theorem read_lines_degenerate {start stop : Position}
    {direction : ReadingDirection} {stream : List ReadItem}
    (hr : resolveWindow start stop direction = none) :
    read_lines stream start stop direction = .ok [] := by
  unfold read_lines
  rw [hr]

theorem read_lines_resolved {start stop s' t' : Position}
    {direction : ReadingDirection} {stream : List ReadItem}
    (hr : resolveWindow start stop direction = some (s', t')) :
    read_lines stream start stop direction
      = match scanLoop s' t' direction stream 0 [] with
        | .error e => .error e
        | .ok lines => .ok (orderFor direction (trimStop t' lines)) := by
  simp only [read_lines, hr]

/-- C5: scanning with the full window FromBegin 0 to FromEnd 0 under
TopToBottom returns every line of the stream in original order with indices
1 through total_lines; a final line without trailing terminator is a line of
the stream like any other and is included. -/
theorem C5_full_scan (ls : List String) :
    read_lines (ls.map .ok) (.FromBegin 0) (.FromEnd 0) .TopToBottom
      = .ok (List.enumFrom 1 ls) := by
  have hr : resolveWindow (.FromBegin 0) (.FromEnd 0) .TopToBottom
      = some (.FromBegin 0, .FromEnd 0) := rfl
  rw [read_lines_resolved hr, scanLoop_all_ok]
  simp [orderFor, trimStop]

theorem scanLoop_hits_err (direction : ReadingDirection) :
    ∀ (ls : List String) (restItems : List ReadItem) (c : Nat) (B : List Line),
      scanLoop (.FromBegin 0) (.FromEnd 0) direction
          (ls.map .ok ++ .err :: restItems) c B
        = .error (.Read (orderFor direction (B ++ List.enumFrom (c + 1) ls))
            (c + ls.length + 1)) := by
  intro ls
  induction ls with
  | nil =>
    intro restItems c B
    simpa using scanLoop_err (by simp [stopReached])
  | cons l rest ih =>
    intro restItems c B
    rw [List.map_cons, List.cons_append, scanLoop_ok (by simp [stopReached])]
    simp only [skipLine, decide_eq_true_eq, Nat.not_lt_zero, decide_False,
      Bool.false_eq_true, if_false, capBuffer]
    rw [ih]
    simp [List.enumFrom_cons]
    omega
theorem scanLoop_success_before_err {start stop : Position} {direction : ReadingDirection} :
    ∀ (ls : List String) (restItems : List ReadItem) (c : Nat) (B v : List Line),
      scanLoop start stop direction (ls.map .ok ++ .err :: restItems) c B = .ok v →
      scanLoop start stop direction (ls.map .ok) c B = .ok v := by
  intro ls
  induction ls with
  | nil =>
    intro restItems c B v h
    simp only [List.map_nil, List.nil_append] at h
    by_cases hs : stopReached stop c
    · rw [scanLoop_stop hs] at h
      rw [scanLoop_stop hs]
      exact h
    · rw [scanLoop_err (by simpa using hs)] at h
      exact absurd h (by simp)
  | cons l rest ih =>
    intro restItems c B v h
    by_cases hs : stopReached stop c
    · rw [scanLoop_stop hs] at h
      rw [scanLoop_stop hs]
      exact h
    · rw [List.map_cons, List.cons_append,
        scanLoop_ok (by simpa using hs)] at h
      rw [List.map_cons, scanLoop_ok (by simpa using hs)]
      by_cases hk : skipLine start (c + 1)
      · simp only [hk, if_true] at h ⊢
        exact ih restItems _ _ _ h
      · simp only [hk, Bool.false_eq_true, if_false] at h ⊢
        exact ih restItems _ _ _ h

/-- C6: a read failure mid-scan is never swallowed into a success: a scan
over a stream whose failing read was actually consulted cannot return Ok
unless the same Ok arises without ever reaching the failure (first
conjunct: any successful result of a stream with an embedded failure is
already the result of the failure-free prefix). For the all-lines requests
in both directions the scan returns the Read error carrying every retained
line in output order (reversed for BottomToTop) and the 1-based index of
the failing read (second conjunct); the scenario of the claim, a failure at
line 3 of a 5-line stream, is the instance ls of length 2. -/
theorem C6_read_failure :
    (∀ (start stop : Position) (direction : ReadingDirection) (ls : List String)
        (restItems : List ReadItem) (v : List Line),
        read_lines (ls.map .ok ++ .err :: restItems) start stop direction = .ok v →
        read_lines (ls.map .ok) start stop direction = .ok v)
    ∧ (∀ (ls : List String) (restItems : List ReadItem),
        read_lines (ls.map .ok ++ .err :: restItems) (.FromBegin 0) (.FromEnd 0)
            .TopToBottom
          = .error (.Read (List.enumFrom 1 ls) (ls.length + 1))
        ∧ read_lines (ls.map .ok ++ .err :: restItems) (.FromEnd 0) (.FromBegin 0)
            .BottomToTop
          = .error (.Read (List.enumFrom 1 ls).reverse (ls.length + 1))) := by
  constructor
  · intro start stop direction ls restItems v h
    cases hr : resolveWindow start stop direction with
    | none =>
      rw [read_lines_degenerate hr] at h
      rw [read_lines_degenerate hr]
      exact h
    | some p =>
      obtain ⟨s', t'⟩ := p
      rw [read_lines_resolved hr] at h
      rw [read_lines_resolved hr]
      cases hs : scanLoop s' t' direction (ls.map .ok ++ .err :: restItems) 0 [] with
      | error e =>
        rw [hs] at h
        exact absurd h (by simp)
      | ok lines =>
        rw [hs] at h
        rw [scanLoop_success_before_err ls restItems 0 [] lines hs]
        exact h
  · intro ls restItems
    constructor
    · have hr : resolveWindow (.FromBegin 0) (.FromEnd 0) .TopToBottom
          = some (.FromBegin 0, .FromEnd 0) := rfl
      rw [read_lines_resolved hr, scanLoop_hits_err]
      simp [orderFor]
    · have hr : resolveWindow (.FromEnd 0) (.FromBegin 0) .BottomToTop
          = some (.FromBegin 0, .FromEnd 0) := rfl
      rw [read_lines_resolved hr, scanLoop_hits_err]
      simp [orderFor]

/-- Witness for C6 at concrete inputs: the first conjunct applied to a
stream whose stop bound halts the scan before the failure, the second to a
one-line stream followed by a failing read. -/
theorem C6_read_failure_witness :
    read_lines [ReadItem.ok "a\n"] (.FromBegin 0) (.FromBegin 1) .TopToBottom
      = .ok [(1, "a\n")]
    ∧ read_lines [ReadItem.ok "x", ReadItem.err] (.FromBegin 0) (.FromEnd 0)
        .TopToBottom = .error (.Read [(1, "x")] 2) :=
  ⟨C6_read_failure.1 (.FromBegin 0) (.FromBegin 1) .TopToBottom ["a\n"] []
      [(1, "a\n")] (by decide),
   (C6_read_failure.2 ["x"] []).1⟩
theorem capBuffer_fromEnd_le {a : Nat} {stop : Position} {X : List Line}
    (hX : X.length ≤ a + 1) :
    (capBuffer (Position.FromEnd a) stop X).length ≤ a := by
  cases stop
  all_goals
    simp only [capBuffer]
    split
    · simp only [List.length_drop]
      omega
    · omega
/-- C7, amended: whenever the resolved scan start is FromEnd a, the retained
buffer never holds more than a lines at any point of the scan, whatever the
stop bound; and in the FromEnd, FromEnd anchor combination the resolver
always places the larger offset in the scan start, so that bound is the
largest finite FromEnd offset there. No bound holds for the
(FromBegin, FromEnd) combination, where the code applies no cap. -/
theorem C7_buffer_bound_amended :
    (∀ (stop : Position) (a : Nat) (stream : List ReadItem) (c : Nat)
        (B : List Line), B.length ≤ a →
        ∀ n ∈ scanLoopSizes (.FromEnd a) stop stream c B, n ≤ a)
    ∧ (∀ (x y : Nat) (direction : ReadingDirection) (s t : Position),
        resolveWindow (.FromEnd x) (.FromEnd y) direction = some (s, t) →
        s = .FromEnd (max x y)) := by
  constructor
  · intro stop a stream
    induction stream with
    | nil =>
      intro c B hB n hn
      rw [scanLoopSizes.eq_def] at hn
      simp at hn
    | cons item rest ih =>
      intro c B hB n hn
      rw [scanLoopSizes.eq_def] at hn
      by_cases hs : stopReached stop c
      · simp [hs] at hn
      · simp only [hs, Bool.false_eq_true, if_false] at hn
        cases item with
        | err => simp at hn
        | ok s =>
          simp only [skipLine, decide_eq_true_eq, Nat.not_lt_zero, decide_False,
            Bool.false_eq_true, if_false, List.mem_cons] at hn
          have hstored :
              (capBuffer (.FromEnd a) stop (B ++ [(c + 1, s)])).length ≤ a :=
            capBuffer_fromEnd_le (by simp; omega)
          rcases hn with h1 | h2
          · rw [h1]
            exact hstored
          · exact ih (c + 1) _ hstored n h2
  · intro x y direction s t h
    cases direction with
    | TopToBottom =>
      simp only [resolveWindow] at h
      by_cases hxy : x ≤ y
      · simp [hxy] at h
      · simp only [ge_iff_le, hxy, if_neg, Option.some.injEq, Prod.mk.injEq,
          if_false] at h
        rw [← h.1]
        have : max x y = x := Nat.max_eq_left (Nat.le_of_not_le hxy)
        rw [this]
    | BottomToTop =>
      simp only [resolveWindow] at h
      by_cases hxy : y ≤ x
      · simp [hxy] at h
      · simp only [ge_iff_le, hxy, if_neg, Option.some.injEq, Prod.mk.injEq,
          if_false] at h
        rw [← h.1]
        have : max x y = y := Nat.max_eq_right (Nat.le_of_not_le hxy)
        rw [this]

/-- Witness for the amended C7 theorem at concrete inputs. -/
theorem C7_buffer_bound_amended_witness :
    (1 : Nat) ≤ 1 ∧ Position.FromEnd 2 = .FromEnd (max 2 1) :=
  ⟨C7_buffer_bound_amended.1 (.FromEnd 0) 1 [.ok "a", .ok "b"] 0 [] (by decide)
      1 (by decide),
    C7_buffer_bound_amended.2 2 1 .TopToBottom (.FromEnd 2) (.FromEnd 1)
      (by decide)⟩
theorem lastN_of_le {k : Nat} {l : List α} (h : l.length ≤ k) : lastN k l = l := by
  simp [lastN, Nat.sub_eq_zero_of_le h]

theorem capBuffer_lastN_push (a b : Nat) (hab : a < b) (Y : List Line) (e : Line) :
    capBuffer (.FromBegin a) (.FromBegin b) (lastN (b - a) Y ++ [e])
      = lastN (b - a) (Y ++ [e]) := by
  simp only [capBuffer]
  rcases Nat.lt_or_ge Y.length (b - a) with h | h
  · rw [lastN_of_le (Nat.le_of_lt h)]
    have hle : (Y ++ [e]).length ≤ b - a := by
      simp only [List.length_append, List.length_singleton]
      omega
    rw [if_neg (Nat.not_lt.mpr hle), lastN_of_le hle]
  · have hlen : (lastN (b - a) Y).length = b - a := by
      simp [lastN]
      omega
    rw [if_pos (by rw [List.length_append, hlen]; simp)]
    have h1 : (lastN (b - a) Y ++ [e]).drop 1
        = Y.drop (Y.length - (b - a) + 1) ++ [e] := by
      unfold lastN
      rw [List.drop_append_of_le_length (by rw [List.length_drop]; omega),
        List.drop_drop]
    have h2 : lastN (b - a) (Y ++ [e]) = Y.drop (Y.length + 1 - (b - a)) ++ [e] := by
      unfold lastN
      simp only [List.length_append, List.length_singleton]
      rw [List.drop_append_of_le_length (by omega)]
    have h3 : Y.length - (b - a) + 1 = Y.length + 1 - (b - a) := by omega
    rw [h1, h2, h3]

theorem enumFrom_drop (l : List α) :
    ∀ (n k : Nat), (List.enumFrom n l).drop k = List.enumFrom (n + k) (l.drop k) := by
  induction l with
  | nil => intro n k; simp
  | cons x xs ih =>
    intro n k
    cases k with
    | zero => simp
    | succ k =>
      rw [List.enumFrom_cons]
      simp only [List.drop_succ_cons]
      rw [ih (n + 1) k]
      congr 1
      omega

theorem scanLoop_window (a b : Nat) (hab : a < b) :
    ∀ (ls pre : List String), pre.length ≤ b → b - pre.length ≤ ls.length →
      scanLoop (.FromBegin a) (.FromBegin b) .TopToBottom (ls.map .ok) pre.length
          (lastN (b - a) ((List.enumFrom 1 pre).drop (a - 1)))
        = .ok (lastN (b - a)
            ((List.enumFrom 1 (pre ++ ls.take (b - pre.length))).drop (a - 1))) := by
  intro ls
  induction ls with
  | nil =>
    intro pre hpre hlen
    simp only [List.length_nil] at hlen
    rw [scanLoop_stop (by simp [stopReached]; omega)]
    simp
  | cons l rest ih =>
    intro pre hpre hlen
    simp only [List.length_cons] at hlen
    by_cases hstop : b ≤ pre.length
    · rw [scanLoop_stop (by simp [stopReached]; omega)]
      have h0 : b - pre.length = 0 := by omega
      rw [h0]
      simp
    · rw [List.map_cons, scanLoop_ok (by simp [stopReached]; omega)]
      have htake : pre ++ (l :: rest).take (b - pre.length)
          = (pre ++ [l]) ++ rest.take (b - (pre.length + 1)) := by
        have h4 : b - pre.length = (b - (pre.length + 1)) + 1 := by omega
        rw [h4, List.take_succ_cons]
        simp
      have hlen2 : (pre ++ [l]).length = pre.length + 1 := by simp
      by_cases hskip : pre.length + 1 < a
      · rw [if_pos (by simp [skipLine]; omega)]
        have hB : lastN (b - a) ((List.enumFrom 1 pre).drop (a - 1))
            = lastN (b - a) ((List.enumFrom 1 (pre ++ [l])).drop (a - 1)) := by
          rw [List.drop_eq_nil_of_le (by rw [List.enumFrom_length]; omega),
            List.drop_eq_nil_of_le (by rw [List.enumFrom_length]; simp; omega)]
        rw [hB, htake]
        have := ih (pre ++ [l]) (by simp; omega) (by simp; omega)
        rw [hlen2] at this
        exact this
      · rw [if_neg (by simp [skipLine]; omega)]
        have e1 : List.enumFrom 1 (pre ++ [l])
            = List.enumFrom 1 pre ++ [(pre.length + 1, l)] := by
          rw [List.enumFrom_append, List.enumFrom_singleton, Nat.add_comm]
        have hbuf : capBuffer (.FromBegin a) (.FromBegin b)
            (lastN (b - a) ((List.enumFrom 1 pre).drop (a - 1))
              ++ [(pre.length + 1, l)])
            = lastN (b - a) ((List.enumFrom 1 (pre ++ [l])).drop (a - 1)) := by
          rw [e1,
            List.drop_append_of_le_length (by rw [List.enumFrom_length]; omega),
            capBuffer_lastN_push a b hab]
        rw [hbuf, htake]
        have := ih (pre ++ [l]) (by simp; omega) (by simp; omega)
        rw [hlen2] at this
        exact this

theorem lastN_enumFrom_window (ls : List String) (a b : Nat) (hab : a < b)
    (hb : b ≤ ls.length) :
    lastN (b - a) ((List.enumFrom 1 (ls.take b)).drop (a - 1))
      = List.enumFrom (a + 1) ((ls.drop a).take (b - a)) := by
  have hlen1 : (ls.take b).length = b := by
    rw [List.length_take]
    omega
  unfold lastN
  rw [List.length_drop, List.enumFrom_length, hlen1, List.drop_drop]
  have hX : (a - 1) + (b - (a - 1) - (b - a)) = a := by omega
  rw [hX, enumFrom_drop, List.drop_take, Nat.add_comm]

/-- C1: for every stream and bounds a strictly below b with b at most the
total line count, the TopToBottom scan from FromBegin a to FromBegin b
returns exactly the lines a+1 through b, each carrying its 1-based ordinal
position in the stream as index and the original line content, terminator
included. -/
theorem C1_from_begin_window (ls : List String) (a b : Nat)
    (hab : a < b) (hb : b ≤ ls.length) :
    read_lines (ls.map .ok) (.FromBegin a) (.FromBegin b) .TopToBottom
      = .ok (List.enumFrom (a + 1) ((ls.drop a).take (b - a))) := by
  have hr : resolveWindow (.FromBegin a) (.FromBegin b) .TopToBottom
      = some (.FromBegin a, .FromBegin b) := by
    simp only [resolveWindow, ge_iff_le]
    rw [if_neg (by omega)]
  rw [read_lines_resolved hr]
  have h0 := scanLoop_window a b hab ls [] (by simp) (by simpa using hb)
  simp only [List.length_nil, List.enumFrom_nil, List.drop_nil, Nat.sub_zero,
    List.nil_append] at h0
  have hN : lastN (b - a) ([] : List Line) = [] := by simp [lastN]
  rw [hN] at h0
  rw [h0]
  simp only [orderFor, trimStop]
  rw [lastN_enumFrom_window ls a b hab hb]

/-- Witness for C1 at a concrete input. -/
theorem C1_from_begin_window_witness :
    1 < 3 ∧ 3 ≤ (["x\n", "y\n", "z"] : List String).length
    ∧ read_lines (["x\n", "y\n", "z"].map .ok) (.FromBegin 1) (.FromBegin 3)
        .TopToBottom = .ok [(2, "y\n"), (3, "z")] :=
  ⟨by decide, by decide,
    C1_from_begin_window ["x\n", "y\n", "z"] 1 3 (by decide) (by decide)⟩
